import Mathlib

/-
Verification of the magnet repository scraper (src/main.rs) against its
natural-language specification.  The Rust source is shallowly embedded:
pure functions become Lean functions, effectful operations (network fetch,
filesystem reads and writes, sleeps) become explicit parameters or event
traces, and machine integers are modelled as Nat with explicit wrapping
where the source can overflow (release-profile two's-complement
semantics): `% 2 ^ 32` at the u32 multiplication of the size filter, and
`% 2 ^ 64` at the u64 byte-size accumulations of the progress tracker and
of `get_dir_size`.
-/

/-! ## Data model (src/main.rs, `RepoInfo`, lines 260-271) -/

/-- One repository's metadata snapshot, as deserialized from the listing
API.  `stars` and `size` are u32 in the source; they are modelled as Nat
(no arithmetic is performed on them except comparisons and the max-size
bound, which is wrapped explicitly where it occurs). -/
structure RepoInfo where
  name : String
  html_url : String
  language : Option String
  stars : Nat
  size : Nat
  is_fork : Bool
  default_branch : String
deriving DecidableEq

/-! ## Filter engine (src/main.rs, `filter_repos`, lines 462-507)

The regex filter is an external crate capability (`Regex::is_match`); it is
modelled as an abstract matcher `String → Bool`, exactly as the source
consumes it. -/

/-- The per-record closure of `filter_repos`.  Each `if ... return false`
of the source becomes one guard; the multiplication `*max_size_mb * 1024`
is u32 arithmetic in the source, hence the `% 2 ^ 32`. -/
def filterPred (language_filter : Option String) (min_stars : Nat)
    (max_size : Option Nat) (only_original : Bool)
    (regex_filter : Option (String → Bool)) (repo : RepoInfo) : Bool :=
  if only_original && repo.is_fork then false
  else if repo.stars < min_stars then false
  else if (match max_size with
           | some max_size_mb => decide ((max_size_mb * 1024) % 2 ^ 32 < repo.size)
           | none => false) then false
  else if (match language_filter with
           | some lang_filter =>
               (match repo.language with
                | some lang => decide (lang.toLower ≠ lang_filter.toLower)
                | none => true)
           | none => false) then false
  else if (match regex_filter with
           | some re => !(re repo.name)
           | none => false) then false
  else true

/-- Embedding of `filter_repos`: `repos.into_iter().filter(...).collect()`. -/
def filter_repos (repos : List RepoInfo) (language_filter : Option String)
    (min_stars : Nat) (max_size : Option Nat) (only_original : Bool)
    (regex_filter : Option (String → Bool)) : List RepoInfo :=
  repos.filter (filterPred language_filter min_stars max_size only_original regex_filter)

/-- A concrete record used for the C1 counterexample: 1 KB, no fork,
no language, zero stars. -/
def smallRepo : RepoInfo :=
  { name := "a", html_url := "u", language := none, stars := 0, size := 1,
    is_fork := false, default_branch := "main" }

/-- The membership predicate of the amended claim: all five filter
predicates, with the max-size bound computed in 32-bit arithmetic as the
source does. -/
def keepSpec (language_filter : Option String) (min_stars : Nat)
    (max_size : Option Nat) (only_original : Bool)
    (regex_filter : Option (String → Bool)) (repo : RepoInfo) : Prop :=
  (only_original = true → repo.is_fork = false) ∧
  min_stars ≤ repo.stars ∧
  (∀ m, max_size = some m → repo.size ≤ (m * 1024) % 2 ^ 32) ∧
  (∀ lf, language_filter = some lf →
    ∃ lang, repo.language = some lang ∧ lang.toLower = lf.toLower) ∧
  (∀ re, regex_filter = some re → re repo.name = true)

/-! ## Retry policy (src/main.rs, `retry_request`, lines 364-404)

The request closure is modelled as a map from attempt index to the attempt
result; sleeps are recorded as a trace of durations in milliseconds. -/

def MAX_RETRIES : Nat := 3

def RETRY_DELAY_MS : Nat := 1000

/-- One outcome of calling the request closure: either a response carrying
an HTTP status code, or a transport-level `reqwest::Error` (carried as its
message). -/
inductive HttpAttempt where
  | ok (status : Nat)
  | err (msg : String)
deriving DecidableEq

/-- `StatusCode::is_success()`: the 2xx range. -/
def isSuccessStatus (status : Nat) : Bool := decide (200 ≤ status ∧ status < 300)

/-- The acceptance condition of the source: success or `NOT_FOUND`. -/
def acceptNow (status : Nat) : Bool := isSuccessStatus status || status == 404

/-- The backoff condition of the source: `FORBIDDEN` or `TOO_MANY_REQUESTS`. -/
def retryStatus (status : Nat) : Bool := status == 403 || status == 429

/-- An attempt result the loop does not return from. -/
def retryable : HttpAttempt → Bool
  | .ok s => retryStatus s
  | .err _ => true

/-- How `retry_request` ends: a returned response (`Ok(response)`, any
status), a surfaced transport error (`Err(last_error.unwrap().to_string())`),
or the panic of `last_error.unwrap()` when `last_error` is `None`. -/
inductive RetryOutcome where
  | ok (status : Nat)
  | err (msg : String)
  | unwrapNone
deriving DecidableEq

structure RetryResult where
  outcome : RetryOutcome
  sleeps : List Nat
  attempts : Nat
deriving DecidableEq

/-- `RETRY_DELAY_MS * 2_u64.pow(attempt)`. -/
def retryDelay (attempt : Nat) : Nat := RETRY_DELAY_MS * 2 ^ attempt

/-- The loop body of `retry_request`: `fuel` counts the remaining
iterations of `for attempt in 0..MAX_RETRIES`; `sleeps` accumulates the
performed backoff sleeps in reverse order. -/
def retryGo (results : Nat → HttpAttempt) :
    Nat → Nat → Option String → List Nat → RetryResult
  | 0, attempt, lastError, sleeps =>
      { outcome := match lastError with
          | some e => RetryOutcome.err e
          | none => RetryOutcome.unwrapNone
        sleeps := sleeps.reverse
        attempts := attempt }
  | fuel + 1, attempt, lastError, sleeps =>
      match results attempt with
      | .ok status =>
          if acceptNow status then
            { outcome := RetryOutcome.ok status, sleeps := sleeps.reverse,
              attempts := attempt + 1 }
          else if retryStatus status then
            retryGo results fuel (attempt + 1) lastError (retryDelay attempt :: sleeps)
          else
            { outcome := RetryOutcome.ok status, sleeps := sleeps.reverse,
              attempts := attempt + 1 }
      | .err e =>
          if attempt < MAX_RETRIES - 1 then
            retryGo results fuel (attempt + 1) (some e) (retryDelay attempt :: sleeps)
          else
            retryGo results fuel (attempt + 1) (some e) sleeps

/-- Embedding of `retry_request`. -/
def retry_request (results : Nat → HttpAttempt) : RetryResult :=
  retryGo results MAX_RETRIES 0 none []

/-! ## Archive retrieval (src/main.rs, `download_repo` lines 406-438 and
`download_and_extract` lines 440-459)

`download_and_extract` is abstracted in `download_repo` as a map
`fetch : String → Except String Nat` from the archive URL to the result of
the fetch-write-extract-measure sequence; the branch attempt trace is
returned alongside the result.  Filesystem existence and the
`get_dir_size` call of the idempotency shortcut are explicit parameters. -/

/-- `format!("{}/archive/refs/heads/{}.zip", repo.html_url, branch)`. -/
def zipUrl (repo : RepoInfo) (branch : String) : String :=
  repo.html_url ++ "/archive/refs/heads/" ++ branch ++ ".zip"

/-- The fixed fallback list of the source. -/
def fallback_branches : List String := ["main", "master", "develop", "trunk"]

/-- The fallback loop of `download_repo`: skip a fallback equal to the
default branch, return the first success, thread the default-branch error
`e` into the final failure message. -/
def tryFallbacks (fetch : String → Except String Nat) (repo : RepoInfo) (e : String) :
    List String → Except String Nat × List String
  | [] => (Except.error ("Failed to download: " ++ e), [])
  | b :: rest =>
      if b == repo.default_branch then tryFallbacks fetch repo e rest
      else
        match fetch (zipUrl repo b) with
        | Except.ok size => (Except.ok size, [b])
        | Except.error _ =>
            let r := tryFallbacks fetch repo e rest
            (r.1, b :: r.2)

/-- The download part of `download_repo` (after the existence shortcut):
default branch first, then the fallbacks. -/
def download_body (fetch : String → Except String Nat) (repo : RepoInfo) :
    Except String Nat × List String :=
  match fetch (zipUrl repo repo.default_branch) with
  | Except.ok size => (Except.ok size, [repo.default_branch])
  | Except.error e =>
      let r := tryFallbacks fetch repo e fallback_branches
      (r.1, repo.default_branch :: r.2)

/-- Embedding of `download_repo`.  `destExists` is `repo_path.exists()`;
`dirSize` is the result of `get_dir_size(&repo_path)` in the shortcut;
the second component is the list of branches attempted over the network,
in order. -/
def download_repo (fetch : String → Except String Nat) (destExists : Bool)
    (dirSize : Except String Nat) (repo : RepoInfo) : Except String Nat × List String :=
  if destExists then
    match dirSize with
    | Except.ok size => (Except.ok size, [])
    | Except.error _ => download_body fetch repo
  else download_body fetch repo

/-- Reference attempt order: the prefix of a branch list up to and
including the first branch whose fetch succeeds. -/
def takeThroughFirstOk (fetchB : String → Except String Nat) : List String → List String
  | [] => []
  | b :: rest =>
      match fetchB b with
      | Except.ok _ => [b]
      | Except.error _ => b :: takeThroughFirstOk fetchB rest

/-- The first branch of a list whose fetch succeeds, with its size. -/
def firstOk (fetchB : String → Except String Nat) : List String → Option (String × Nat)
  | [] => none
  | b :: rest =>
      match fetchB b with
      | Except.ok s => some (b, s)
      | Except.error _ => firstOk fetchB rest

/-- The complete branch attempt order of one `download_repo` run that
reaches the network: default branch, then the fallbacks that differ from
it. -/
def branchOrder (repo : RepoInfo) : List String :=
  repo.default_branch :: fallback_branches.filter (fun b => !(b == repo.default_branch))

/-- Concrete record for the C3 branch-fallback scenario: default branch
`feature-x`, archive present only under `master`. -/
def repoX : RepoInfo :=
  { name := "r", html_url := "https://github.com/u/r", language := none, stars := 0,
    size := 0, is_fork := false, default_branch := "feature-x" }

/-- The network of the C3 scenario: only the `master` archive exists. -/
def fetchX : String → Except String Nat := fun url =>
  if url = zipUrl repoX "master" then Except.ok 42 else Except.error "HTTP 404"

/-- Concrete record for the C8 counterexample: default branch `dev`. -/
def repoZ : RepoInfo :=
  { name := "r", html_url := "h", language := none, stars := 0, size := 0,
    is_fork := false, default_branch := "dev" }

/-- A network where every URL fails with a distinct, URL-identifying
message. -/
def fetchZ : String → Except String Nat := fun url => Except.error ("err:" ++ url)

/-! ## Temporary archive file (src/main.rs, `download_and_extract`,
lines 440-459)

The effectful steps of one `download_and_extract` call are abstracted as an
environment of step results; the returned trace records the filesystem
write/remove operations on the temporary zip file in execution order. -/

/-- A filesystem operation on a sibling file performed by
`download_and_extract`. -/
inductive FsOp where
  | writeFile (path : String)
  | removeFile (path : String)
deriving DecidableEq

/-- The results of the effectful steps of one `download_and_extract` call:
the retried fetch (`Ok` carries the HTTP status), reading the body bytes,
`fs::write` of the temporary file, `extract_zip`, and the final
`get_dir_size`. -/
structure ExtractEnv where
  fetchResult : Except String Nat
  bytesResult : Except String Unit
  writeResult : Except String Unit
  extractResult : Except String Unit
  dirSize : Except String Nat

/-- Embedding of `download_and_extract`: each `?` of the source is an
early return; `fs::remove_file(&zip_file).ok()` runs unconditionally after
the extraction attempt, its own failure ignored; on successful extraction
the result is `get_dir_size(repo_path).unwrap_or(0)`. -/
def download_and_extract (env : ExtractEnv) (repoPath : String) :
    Except String Nat × List FsOp :=
  match env.fetchResult with
  | Except.error e => (Except.error e, [])
  | Except.ok status =>
      if isSuccessStatus status then
        match env.bytesResult with
        | Except.error e => (Except.error e, [])
        | Except.ok _ =>
            match env.writeResult with
            | Except.error e => (Except.error e, [])
            | Except.ok _ =>
                match env.extractResult with
                | Except.ok _ =>
                    (Except.ok (match env.dirSize with
                       | Except.ok n => n
                       | Except.error _ => 0),
                     [FsOp.writeFile (repoPath ++ ".zip"),
                      FsOp.removeFile (repoPath ++ ".zip")])
                | Except.error e =>
                    (Except.error e,
                     [FsOp.writeFile (repoPath ++ ".zip"),
                      FsOp.removeFile (repoPath ++ ".zip")])
      else (Except.error ("HTTP " ++ toString status), [])

/-- An all-success environment for witnesses. -/
def allOkEnv : ExtractEnv :=
  { fetchResult := Except.ok 200, bytesResult := Except.ok (),
    writeResult := Except.ok (), extractResult := Except.ok (),
    dirSize := Except.ok 5 }

/-! ## Progress aggregation (src/main.rs, `ProgressTracker`, lines 211-258)

`report_completion` holds the `completed` mutex for its whole body, so
concurrent reports serialize into some order: the aggregator's final state
is a fold of `report_completion` over the outcome list in completion
order.  The state is the tuple of the tracker's counters. -/

/-- The final statistics read by `get_stats`. -/
structure Stats where
  downloaded : Nat
  failed : Nat
  total_size : Nat
deriving DecidableEq

/-- The counters of `ProgressTracker` (each behind a mutex in the
source). -/
structure TrackerState where
  total : Nat
  completed : Nat
  downloaded : Nat
  failed : Nat
  total_size : Nat
deriving DecidableEq

/-- `ProgressTracker::new(total)`. -/
def ProgressTracker_new (total : Nat) : TrackerState :=
  { total := total, completed := 0, downloaded := 0, failed := 0, total_size := 0 }

/-- Embedding of `report_completion`: increment `completed`; on success
also increment `downloaded` and add the size to `total_size` — the
source's `*total_size += size` is u64 addition, hence the `% 2 ^ 64`
(release-profile wraparound); on failure increment `failed`. -/
def report_completion (s : TrackerState) : Except String Nat → TrackerState
  | Except.ok size =>
      { s with
          completed := s.completed + 1
          downloaded := s.downloaded + 1
          total_size := (s.total_size + size) % 2 ^ 64 }
  | Except.error _ =>
      { s with
          completed := s.completed + 1
          failed := s.failed + 1 }

/-- Embedding of `get_stats`. -/
def get_stats (s : TrackerState) : Stats :=
  { downloaded := s.downloaded, failed := s.failed, total_size := s.total_size }

def isOkOutcome : Except String Nat → Bool
  | Except.ok _ => true
  | Except.error _ => false

def okSize : Except String Nat → Option Nat
  | Except.ok s => some s
  | Except.error _ => none

/-! ## Zip extraction (src/main.rs, `extract_zip`, lines 509-539)

An archive entry carries its raw name and the result of the zip crate's
`enclosed_name()` safety check, modelled as the safe path's component list
(`none` for a path-traversal-unsafe entry).  The filesystem actions of the
loop are recorded as a trace of paths relative to the destination
directory. -/

structure ZipEntry where
  name : String
  enclosed : Option (List String)

/-- One filesystem action of the extraction loop: `create_dir_all` for a
directory entry, `create_dir_all` on a file's parent, `File::create` and
byte copy for a file entry. -/
inductive ExtractAction where
  | mkDir (path : List String)
  | mkParent (path : List String)
  | writeFile (path : List String)
deriving DecidableEq

/-- `file.name().ends_with('/')`: the raw entry name's last character is
the path separator. -/
def nameEndsSlash (name : String) : Bool := name.data.getLast? == some '/'

/-- The loop body of `extract_zip` for one entry: skip when
`enclosed_name()` is `None`; strip the first component; skip when nothing
remains; then create either the directory (name ends in `/`) or the parent
directory and the file. -/
def extract_entry (e : ZipEntry) : List ExtractAction :=
  match e.enclosed with
  | none => []
  | some comps =>
      if comps.length > 1 then
        if nameEndsSlash e.name then [ExtractAction.mkDir (comps.drop 1)]
        else [ExtractAction.mkParent (comps.drop 1).dropLast,
              ExtractAction.writeFile (comps.drop 1)]
      else []

/-- Embedding of `extract_zip`: iterate the entries in order. -/
def extract_zip : List ZipEntry → List ExtractAction
  | [] => []
  | e :: rest => extract_entry e ++ extract_zip rest

def actionPath : ExtractAction → List String
  | ExtractAction.mkDir p => p
  | ExtractAction.mkParent p => p
  | ExtractAction.writeFile p => p

/-! ## Directory size (src/main.rs, `get_dir_size`, lines 541-554)

A filesystem tree: `file` with its byte length, `dir` with a readability
flag (`fs::read_dir` succeeds iff it is `true`) and its entries, and
`badEntry` — an entry whose iterator item (`entry?`) or `metadata()?` call
fails.  The source propagates those two failures with `?` but tolerates a
failing recursive call with `.unwrap_or(0)`. -/

inductive FsNode where
  | file (size : Nat)
  | badEntry
  | dir (readable : Bool) (entries : List FsNode)

mutual

/-- Embedding of `get_dir_size`: `fs::read_dir(dir)?` fails on a
non-directory or unreadable directory; otherwise the entries are walked. -/
def get_dir_size : FsNode → Except String Nat
  | FsNode.file _ => Except.error "read_dir failed"
  | FsNode.badEntry => Except.error "read_dir failed"
  | FsNode.dir false _ => Except.error "read_dir failed"
  | FsNode.dir true entries => dirEntriesSize entries
termination_by n => sizeOf n

/-- The entry loop of `get_dir_size`: `entry?` / `entry.metadata()?`
abort; a file adds its length; a subdirectory adds
`get_dir_size(&entry.path()).unwrap_or(0)`.  The accumulator `size` is
u64, so each `size += ...` is wrapping addition: every step carries a
`% 2 ^ 64` (wrapping addition is associative, so folding from the right
yields the same value as the source's left-to-right accumulation). -/
def dirEntriesSize : List FsNode → Except String Nat
  | [] => Except.ok 0
  | FsNode.badEntry :: _ => Except.error "metadata failed"
  | FsNode.file n :: rest => (dirEntriesSize rest).map (fun t => (n + t) % 2 ^ 64)
  | FsNode.dir r es :: rest =>
      (dirEntriesSize rest).map (fun t =>
        ((match get_dir_size (FsNode.dir r es) with
          | Except.ok v => v
          | Except.error _ => 0) + t) % 2 ^ 64)
termination_by l => sizeOf l

end

/-- Whether a directory's own entry list contains a metadata-failing
entry (the condition under which the source aborts at that level). -/
def hasBadEntry : List FsNode → Bool
  | [] => false
  | FsNode.badEntry :: _ => true
  | _ :: rest => hasBadEntry rest

mutual

/-- The intended size of a node as the amended claim describes it:
regular files contribute their length, anything unreadable contributes 0,
and the per-directory accumulation is wrapping u64 addition (mod 2^64),
as in the source. -/
def specDirSize : FsNode → Nat
  | FsNode.file n => n
  | FsNode.badEntry => 0
  | FsNode.dir false _ => 0
  | FsNode.dir true es => if hasBadEntry es then 0 else specSum es
termination_by n => sizeOf n

def specSum : List FsNode → Nat
  | [] => 0
  | e :: rest => (specDirSize e + specSum rest) % 2 ^ 64
termination_by l => sizeOf l

end

/-! ## Theorems -/

/-- Claim C1, counterexample.  The record `smallRepo` satisfies all five
predicates of the claim read with exact arithmetic (in particular its size
1 KB is below the requested bound 4194304 MB = 2^32 KB), yet
`filter_repos` drops it: the u32 product `4194304 * 1024` wraps to 0, so
the size guard rejects every record of positive size. -/
theorem filter_repos_claim_counterexample :
    filter_repos [smallRepo] none 0 (some 4194304) false none = [] ∧
    smallRepo.size ≤ 4194304 * 1024 ∧
    smallRepo.is_fork = false ∧ 0 ≤ smallRepo.stars := by
  refine ⟨?_, by decide, by decide, by decide⟩
  decide

theorem if_false_chain (c : Prop) [Decidable c] (b : Bool) :
    ((if c then false else b) = true) ↔ ¬c ∧ b = true := by
  by_cases h : c <;> simp [h]

theorem filterPred_eq_true_iff (language_filter : Option String) (min_stars : Nat)
    (max_size : Option Nat) (only_original : Bool)
    (regex_filter : Option (String → Bool)) (repo : RepoInfo) :
    filterPred language_filter min_stars max_size only_original regex_filter repo = true ↔
      keepSpec language_filter min_stars max_size only_original regex_filter repo := by
  unfold filterPred keepSpec
  rcases max_size with _ | m <;>
    rcases language_filter with _ | lf <;>
      rcases regex_filter with _ | re <;>
        cases only_original <;>
          rcases hlang : repo.language with _ | lang <;>
            simp [hlang, if_false_chain, Nat.not_lt, and_assoc]

/-- Claim C1 (amended: the max-size bound is the u32 product
`maxSizeMB * 1024`, i.e. reduced mod 2^32).  `filter_repos` returns a
sublist of its input (order preserved, nothing added), a record of the
input appears in the output iff it satisfies all five predicates, and the
empty criteria set keeps every record. -/
theorem filter_repos_spec (repos : List RepoInfo) (language_filter : Option String)
    (min_stars : Nat) (max_size : Option Nat) (only_original : Bool)
    (regex_filter : Option (String → Bool)) :
    List.Sublist
      (filter_repos repos language_filter min_stars max_size only_original regex_filter)
      repos ∧
    (∀ repo,
      repo ∈ filter_repos repos language_filter min_stars max_size only_original regex_filter ↔
        repo ∈ repos ∧
          keepSpec language_filter min_stars max_size only_original regex_filter repo) ∧
    filter_repos repos none 0 none false none = repos := by
  refine ⟨List.filter_sublist _, ?_, ?_⟩
  · intro repo
    rw [filter_repos, List.mem_filter, filterPred_eq_true_iff]
  · rw [filter_repos]
    apply List.filter_eq_self.mpr
    intro repo _
    rw [filterPred_eq_true_iff]
    exact ⟨by simp, Nat.zero_le _, by simp, by simp, by simp⟩

/-- Claim C1, witness: the amended theorem applied at a concrete input;
a 7-star non-fork rust repo passes a min-stars-5, language "rust",
originals-only, max-size-1MB filter. -/
theorem filter_repos_spec_witness :
    ({ name := "m", html_url := "u", language := some "rust", stars := 7, size := 12,
       is_fork := false, default_branch := "main" } : RepoInfo) ∈
      filter_repos
        [{ name := "m", html_url := "u", language := some "rust", stars := 7, size := 12,
           is_fork := false, default_branch := "main" }]
        (some "rust") 5 (some 1) true none := by
  have h := filter_repos_spec
    [{ name := "m", html_url := "u", language := some "rust", stars := 7, size := 12,
       is_fork := false, default_branch := "main" }]
    (some "rust") 5 (some 1) true none
  refine (h.2.1 _).mpr ⟨by simp, fun _ => rfl, by decide, ?_, ?_, ?_⟩
  · intro m hm
    cases hm
    decide
  · intro lf hlf
    cases hlf
    exact ⟨"rust", rfl, rfl⟩
  · intro re hre
    cases hre

theorem retryStatus_acceptNow_false (s : Nat) (h : retryStatus s = true) :
    acceptNow s = false := by
  simp only [retryStatus, Bool.or_eq_true, beq_iff_eq] at h
  rcases h with h | h <;> subst h <;> decide

theorem retryGo_attempts_le (results : Nat → HttpAttempt) :
    ∀ fuel attempt lastError sleeps,
      (retryGo results fuel attempt lastError sleeps).attempts ≤ attempt + fuel := by
  intro fuel
  induction fuel with
  | zero => intro a le sl; simp [retryGo]
  | succ f ih =>
      intro a le sl
      simp only [retryGo]
      cases h : results a with
      | ok s =>
          by_cases h1 : acceptNow s = true
          · simp [h1]
          · by_cases h2 : retryStatus s = true
            · dsimp only
              rw [if_neg h1, if_pos h2]
              exact le_trans (ih (a + 1) le (retryDelay a :: sl)) (by omega)
            · dsimp only
              rw [if_neg h1, if_neg h2]
              simp
      | err e =>
          by_cases h3 : a < MAX_RETRIES - 1
          · dsimp only
            rw [if_pos h3]
            exact le_trans (ih (a + 1) (some e) (retryDelay a :: sl)) (by omega)
          · dsimp only
            rw [if_neg h3]
            exact le_trans (ih (a + 1) (some e) sl) (by omega)

theorem retryGo_attempts_ge (results : Nat → HttpAttempt) :
    ∀ fuel attempt lastError sleeps,
      attempt + 1 ≤ (retryGo results (fuel + 1) attempt lastError sleeps).attempts := by
  intro fuel
  induction fuel with
  | zero =>
      intro a le sl
      simp only [retryGo]
      cases h : results a with
      | ok s =>
          by_cases h1 : acceptNow s = true
          · simp [h1]
          · by_cases h2 : retryStatus s = true <;> simp [h1, h2, retryGo]
      | err e =>
          by_cases h3 : a < MAX_RETRIES - 1 <;> simp [h3, retryGo]
  | succ f ih =>
      intro a le sl
      simp only [retryGo]
      cases h : results a with
      | ok s =>
          by_cases h1 : acceptNow s = true
          · simp [h1]
          · by_cases h2 : retryStatus s = true
            · simp only [h1, h2, if_true, if_false]
              exact le_trans (by omega) (ih (a + 1) le (retryDelay a :: sl))
            · simp [h1, h2]
      | err e =>
          by_cases h3 : a < MAX_RETRIES - 1
          · simp only [h3, if_true]
            exact le_trans (by omega) (ih (a + 1) (some e) (retryDelay a :: sl))
          · simp only [h3, if_false]
            exact le_trans (by omega) (ih (a + 1) (some e) sl)

theorem retryGo_sleeps_mono (results : Nat → HttpAttempt) :
    ∀ fuel attempt lastError sleeps,
      ∃ rest, (retryGo results fuel attempt lastError sleeps).sleeps =
        sleeps.reverse ++ rest := by
  intro fuel
  induction fuel with
  | zero => intro a le sl; exact ⟨[], by simp [retryGo]⟩
  | succ f ih =>
      intro a le sl
      simp only [retryGo]
      cases h : results a with
      | ok s =>
          by_cases h1 : acceptNow s = true
          · exact ⟨[], by dsimp only; rw [if_pos h1]; simp⟩
          · by_cases h2 : retryStatus s = true
            · obtain ⟨rest, hrest⟩ := ih (a + 1) le (retryDelay a :: sl)
              refine ⟨retryDelay a :: rest, ?_⟩
              dsimp only
              rw [if_neg h1, if_pos h2, hrest]
              simp
            · exact ⟨[], by dsimp only; rw [if_neg h1, if_neg h2]; simp⟩
      | err e =>
          by_cases h3 : a < MAX_RETRIES - 1
          · obtain ⟨rest, hrest⟩ := ih (a + 1) (some e) (retryDelay a :: sl)
            refine ⟨retryDelay a :: rest, ?_⟩
            dsimp only
            rw [if_pos h3, hrest]
            simp
          · obtain ⟨rest, hrest⟩ := ih (a + 1) (some e) sl
            refine ⟨rest, ?_⟩
            dsimp only
            rw [if_neg h3, hrest]

theorem retryGo_reach (results : Nat → HttpAttempt) :
    ∀ i, i ≤ 2 → (∀ j, j < i → retryable (results j) = true) →
      ∃ le, retry_request results =
        retryGo results (3 - i) i le (((List.range i).map retryDelay).reverse) := by
  intro i
  induction i with
  | zero => intro _ _; exact ⟨none, rfl⟩
  | succ i ih =>
      intro hi hre
      obtain ⟨le, heq⟩ := ih (by omega) (fun j hj => hre j (by omega))
      have hstep : retryable (results i) = true := hre i (by omega)
      have hfuel : 3 - i = (3 - (i + 1)) + 1 := by omega
      rw [hfuel] at heq
      cases h : results i with
      | ok s =>
          have hrs : retryStatus s = true := by
            have := hstep; rw [h] at this; exact this
          have han : acceptNow s = false := retryStatus_acceptNow_false s hrs
          refine ⟨le, ?_⟩
          rw [heq]
          simp only [retryGo, h, han, hrs, Bool.false_eq_true, if_false, if_true]
          congr 1
          simp [List.range_succ]
      | err e =>
          have hlt : i < MAX_RETRIES - 1 := by
            simp only [MAX_RETRIES]; omega
          refine ⟨some e, ?_⟩
          rw [heq]
          simp only [retryGo, h, hlt, if_true]
          congr 1
          simp [List.range_succ]

/-- Claim C2: `retry_request` makes at most 3 attempts; once an attempt is
reached (all earlier attempts retryable), a response whose status is
neither forbidden nor rate-limited is returned to the caller immediately
(this covers both the success/not-found acceptance and the other
non-retryable statuses), with exactly the backoff sleeps
`1000 * 2^j` for the earlier attempts `j`; a forbidden/rate-limited
response or transport error on one of the first two attempts causes the
sleep `1000 * 2^i` and a further attempt; and when all three attempts are
transport errors the last transport error is surfaced after sleeping
1000 ms and 2000 ms.  (A forbidden/rate-limited response on the third
attempt still sleeps 4000 ms; what is returned then is claim C5's
subject.) -/
theorem retry_request_policy (results : Nat → HttpAttempt) :
    (retry_request results).attempts ≤ 3 ∧
    (∀ i s, i < 3 → (∀ j, j < i → retryable (results j) = true) →
      results i = HttpAttempt.ok s → retryStatus s = false →
      retry_request results =
        { outcome := RetryOutcome.ok s, sleeps := (List.range i).map retryDelay,
          attempts := i + 1 }) ∧
    (∀ i, i < 2 → (∀ j, j < i → retryable (results j) = true) →
      retryable (results i) = true →
      i + 2 ≤ (retry_request results).attempts ∧
      (retry_request results).sleeps.take (i + 1) =
        (List.range (i + 1)).map retryDelay) ∧
    (∀ s, (∀ j, j < 2 → retryable (results j) = true) →
      results 2 = HttpAttempt.ok s → retryStatus s = true →
      (retry_request results).sleeps = [1000, 2000, 4000] ∧
      (retry_request results).attempts = 3) ∧
    (∀ e0 e1 e2, results 0 = HttpAttempt.err e0 → results 1 = HttpAttempt.err e1 →
      results 2 = HttpAttempt.err e2 →
      retry_request results =
        { outcome := RetryOutcome.err e2, sleeps := [1000, 2000], attempts := 3 }) := by
  refine ⟨?_, ?_, ?_, ?_, ?_⟩
  · have h := retryGo_attempts_le results 3 0 none []
    simpa [retry_request, MAX_RETRIES] using h
  · intro i s hi hre hok hst
    obtain ⟨le, heq⟩ := retryGo_reach results i (by omega) hre
    have hfuel : 3 - i = (2 - i) + 1 := by omega
    rw [heq, hfuel]
    simp only [retryGo, hok]
    by_cases han : acceptNow s = true <;> simp [han, hst]
  · intro i hi hre hr
    have hall : ∀ j, j < i + 1 → retryable (results j) = true := by
      intro j hj
      by_cases hji : j < i
      · exact hre j hji
      · have : j = i := by omega
        subst this; exact hr
    obtain ⟨le, heq⟩ := retryGo_reach results (i + 1) (by omega) hall
    have hfuel : 3 - (i + 1) = (1 - i) + 1 := by omega
    rw [heq, hfuel]
    constructor
    · exact retryGo_attempts_ge results (1 - i) (i + 1) le _
    · obtain ⟨rest, hrest⟩ := retryGo_sleeps_mono results ((1 - i) + 1) (i + 1) le
        (((List.range (i + 1)).map retryDelay).reverse)
      rw [hrest, List.reverse_reverse]
      exact List.take_left' (by simp)
  · intro s hre hok hst
    obtain ⟨le, heq⟩ := retryGo_reach results 2 (by omega) hre
    have han : acceptNow s = false := retryStatus_acceptNow_false s hst
    rw [heq, show (3 : Nat) - 2 = 0 + 1 from rfl]
    simp only [retryGo, hok]
    rw [if_neg (by simp [han]), if_pos hst]
    simp only [retryGo]
    constructor
    · decide
    · trivial
  · intro e0 e1 e2 h0 h1 h2
    have step0 : retry_request results =
        retryGo results 2 1 (some e0) [retryDelay 0] := by
      show retryGo results (2 + 1) 0 none [] =
        retryGo results 2 1 (some e0) [retryDelay 0]
      simp only [retryGo, h0]
      rw [if_pos (show 0 < MAX_RETRIES - 1 by decide)]
    have step1 : retryGo results 2 1 (some e0) [retryDelay 0] =
        retryGo results 1 2 (some e1) [retryDelay 1, retryDelay 0] := by
      show retryGo results (1 + 1) 1 (some e0) [retryDelay 0] =
        retryGo results 1 2 (some e1) [retryDelay 1, retryDelay 0]
      simp only [retryGo, h1]
      rw [if_pos (show 1 < MAX_RETRIES - 1 by decide)]
    have step2 : retryGo results 1 2 (some e1) [retryDelay 1, retryDelay 0] =
        retryGo results 0 3 (some e2) [retryDelay 1, retryDelay 0] := by
      show retryGo results (0 + 1) 2 (some e1) [retryDelay 1, retryDelay 0] =
        retryGo results 0 3 (some e2) [retryDelay 1, retryDelay 0]
      simp only [retryGo, h2]
      rw [if_neg (show ¬ 2 < MAX_RETRIES - 1 by decide)]
    rw [step0, step1, step2]
    rfl

/-- Claim C2, witness: three transport errors in a row surface the last
error after sleeping 1000 ms then 2000 ms, with 3 attempts made. -/
theorem retry_request_policy_witness :
    retry_request (fun _ => HttpAttempt.err "boom") =
      { outcome := RetryOutcome.err "boom", sleeps := [1000, 2000], attempts := 3 } :=
  (retry_request_policy (fun _ => HttpAttempt.err "boom")).2.2.2.2
    "boom" "boom" "boom" rfl rfl rfl

/-- Claim C5: when every one of the 3 attempts yields a rate-limited (429)
response and none fails at the transport level, `retry_request` falls out
of its loop with `last_error = None` and reaches `last_error.unwrap()`,
which panics (`RetryOutcome.unwrapNone`): no response and no error value
is returned.  (The same holds for 403; the final 4000 ms sleep is still
performed before the panic.) -/
theorem retry_request_unwrap_none :
    retry_request (fun _ => HttpAttempt.ok 429) =
      { outcome := RetryOutcome.unwrapNone, sleeps := [1000, 2000, 4000],
        attempts := 3 } := by
  rfl

theorem tryFallbacks_eq_filter (fetch : String → Except String Nat) (repo : RepoInfo)
    (e : String) :
    ∀ bs, tryFallbacks fetch repo e bs =
      tryFallbacks fetch repo e (bs.filter (fun x => !(x == repo.default_branch))) := by
  intro bs
  induction bs with
  | nil => rfl
  | cons b rest ih =>
      by_cases hb : (b == repo.default_branch) = true
      · have h1 : tryFallbacks fetch repo e (b :: rest) = tryFallbacks fetch repo e rest := by
          simp [tryFallbacks, hb]
        have h2 : (b :: rest).filter (fun x => !(x == repo.default_branch)) =
            rest.filter (fun x => !(x == repo.default_branch)) := by
          simp [hb]
        rw [h1, h2]
        exact ih
      · have h2 : (b :: rest).filter (fun x => !(x == repo.default_branch)) =
            b :: rest.filter (fun x => !(x == repo.default_branch)) := by
          simp [hb]
        rw [h2]
        simp only [tryFallbacks, hb, Bool.false_eq_true, if_false]
        cases hf : fetch (zipUrl repo b) with
        | ok s => rfl
        | error msg => simp [ih]

theorem takeThrough_sublist (fetchB : String → Except String Nat) :
    ∀ bs, List.Sublist (takeThroughFirstOk fetchB bs) bs := by
  intro bs
  induction bs with
  | nil => simp [takeThroughFirstOk]
  | cons b rest ih =>
      simp only [takeThroughFirstOk]
      cases hf : fetchB b with
      | ok s =>
          dsimp only
          exact List.Sublist.cons₂ b (List.nil_sublist rest)
      | error msg =>
          dsimp only
          exact List.Sublist.cons₂ b ih

theorem firstOk_none_of_all_fail (fetchB : String → Except String Nat) :
    ∀ bs, (∀ b ∈ bs, ∃ m, fetchB b = Except.error m) → firstOk fetchB bs = none := by
  intro bs
  induction bs with
  | nil => intro _; rfl
  | cons b rest ih =>
      intro h
      obtain ⟨m, hm⟩ := h b (List.mem_cons_self b rest)
      simp only [firstOk, hm]
      exact ih (fun x hx => h x (List.mem_cons_of_mem _ hx))

theorem tryFallbacks_no_skip (fetch : String → Except String Nat) (repo : RepoInfo)
    (e : String) :
    ∀ bs, (∀ b ∈ bs, (b == repo.default_branch) = false) →
      (tryFallbacks fetch repo e bs).2 =
        takeThroughFirstOk (fun x => fetch (zipUrl repo x)) bs ∧
      (∀ b s, firstOk (fun x => fetch (zipUrl repo x)) bs = some (b, s) →
        (tryFallbacks fetch repo e bs).1 = Except.ok s) ∧
      (firstOk (fun x => fetch (zipUrl repo x)) bs = none →
        (tryFallbacks fetch repo e bs).1 =
          Except.error ("Failed to download: " ++ e)) := by
  intro bs
  induction bs with
  | nil =>
      intro _
      refine ⟨rfl, ?_, fun _ => rfl⟩
      intro b s h
      simp [firstOk] at h
  | cons b rest ih =>
      intro h
      have hb : (b == repo.default_branch) = false := h b (List.mem_cons_self b rest)
      obtain ⟨ih1, ih2, ih3⟩ := ih (fun x hx => h x (List.mem_cons_of_mem _ hx))
      cases hf : fetch (zipUrl repo b) with
      | ok s =>
          refine ⟨?_, ?_, ?_⟩
          · simp [tryFallbacks, takeThroughFirstOk, hb, hf]
          · intro b' s' hsome
            simp only [firstOk, hf] at hsome
            simp only [Option.some.injEq, Prod.mk.injEq] at hsome
            obtain ⟨rfl, rfl⟩ := hsome
            simp [tryFallbacks, hb, hf]
          · intro hnone
            simp [firstOk, hf] at hnone
      | error msg =>
          have hstep : tryFallbacks fetch repo e (b :: rest) =
              ((tryFallbacks fetch repo e rest).1,
               b :: (tryFallbacks fetch repo e rest).2) := by
            simp [tryFallbacks, hb, hf]
          refine ⟨?_, ?_, ?_⟩
          · rw [hstep]
            simp only [takeThroughFirstOk, hf]
            rw [ih1]
          · intro b' s' hsome
            simp only [firstOk, hf] at hsome
            rw [hstep]
            exact ih2 b' s' hsome
          · intro hnone
            simp only [firstOk, hf] at hnone
            rw [hstep]
            exact ih3 hnone

theorem fallbackFiltered_ne (repo : RepoInfo) :
    ∀ b ∈ fallback_branches.filter (fun x => !(x == repo.default_branch)),
      (b == repo.default_branch) = false := by
  intro b hb
  have := List.of_mem_filter hb
  simpa using this

theorem download_body_char (fetch : String → Except String Nat) (repo : RepoInfo) :
    (download_body fetch repo).2 =
      takeThroughFirstOk (fun x => fetch (zipUrl repo x)) (branchOrder repo) ∧
    (∀ b s, firstOk (fun x => fetch (zipUrl repo x)) (branchOrder repo) = some (b, s) →
      (download_body fetch repo).1 = Except.ok s) ∧
    (firstOk (fun x => fetch (zipUrl repo x)) (branchOrder repo) = none →
      ∃ e0, fetch (zipUrl repo repo.default_branch) = Except.error e0 ∧
        (download_body fetch repo).1 = Except.error ("Failed to download: " ++ e0)) := by
  cases hf : fetch (zipUrl repo repo.default_branch) with
  | ok s =>
      refine ⟨?_, ?_, ?_⟩
      · simp [download_body, branchOrder, takeThroughFirstOk, hf]
      · intro b' s' hsome
        simp only [branchOrder, firstOk, hf] at hsome
        simp only [Option.some.injEq, Prod.mk.injEq] at hsome
        obtain ⟨rfl, rfl⟩ := hsome
        simp [download_body, hf]
      · intro hnone
        simp [branchOrder, firstOk, hf] at hnone
  | error e =>
      obtain ⟨h1, h2, h3⟩ := tryFallbacks_no_skip fetch repo e
        (fallback_branches.filter (fun x => !(x == repo.default_branch)))
        (fallbackFiltered_ne repo)
      have hbody : download_body fetch repo =
          ((tryFallbacks fetch repo e
              (fallback_branches.filter (fun x => !(x == repo.default_branch)))).1,
           repo.default_branch ::
             (tryFallbacks fetch repo e
               (fallback_branches.filter (fun x => !(x == repo.default_branch)))).2) := by
        simp only [download_body, hf]
        rw [tryFallbacks_eq_filter]
      have hfo : firstOk (fun x => fetch (zipUrl repo x)) (branchOrder repo) =
          firstOk (fun x => fetch (zipUrl repo x))
            (fallback_branches.filter (fun x => !(x == repo.default_branch))) := by
        simp only [branchOrder, firstOk, hf]
      refine ⟨?_, ?_, ?_⟩
      · rw [hbody]
        simp only [branchOrder, takeThroughFirstOk, hf]
        rw [h1]
      · intro b' s' hsome
        rw [hfo] at hsome
        rw [hbody]
        exact h2 b' s' hsome
      · intro hnone
        rw [hfo] at hnone
        refine ⟨e, rfl, ?_⟩
        rw [hbody]
        exact h3 hnone

theorem takeThrough_getLast (fetchB : String → Except String Nat) :
    ∀ bs b s, firstOk fetchB bs = some (b, s) →
      (takeThroughFirstOk fetchB bs).getLast? = some b := by
  intro bs
  induction bs with
  | nil =>
      intro b s h
      simp [firstOk] at h
  | cons c rest ih =>
      intro b s h
      cases hf : fetchB c with
      | ok v =>
          simp only [firstOk, hf] at h
          simp only [Option.some.injEq, Prod.mk.injEq] at h
          obtain ⟨rfl, rfl⟩ := h
          simp [takeThroughFirstOk, hf]
      | error msg =>
          simp only [firstOk, hf] at h
          have hlast := ih b s h
          simp only [takeThroughFirstOk, hf]
          cases rest with
          | nil => simp [firstOk] at h
          | cons c2 rest2 =>
              cases hf2 : fetchB c2 with
              | ok v2 =>
                  simp only [takeThroughFirstOk, hf2] at hlast ⊢
                  rw [List.getLast?_cons_cons]
                  exact hlast
              | error m2 =>
                  simp only [takeThroughFirstOk, hf2] at hlast ⊢
                  rw [List.getLast?_cons_cons]
                  exact hlast

theorem branchOrder_count_one (repo : RepoInfo) :
    (branchOrder repo).count repo.default_branch = 1 := by
  have hnot : repo.default_branch ∉
      fallback_branches.filter (fun x => !(x == repo.default_branch)) := by
    intro hmem
    have := List.of_mem_filter hmem
    simp at this
  simp [branchOrder, List.count_cons, List.count_eq_zero.mpr hnot]

/-- Claim C3: with the destination absent, `download_repo` attempts the
default branch first and then the fallbacks `main, master, develop, trunk`
in order, skipping a fallback equal to the default branch; the attempt
trace is exactly the prefix of that order up to and including the first
branch whose fetch-and-extract succeeds (so nothing is attempted after a
success), whose size is returned; if none succeeds every branch of the
order is attempted once and a failure is returned; no branch — in
particular the default branch — is attempted twice.  Concretely, a record
with default branch `feature-x` whose archive exists only under `master`
produces the attempt order `[feature-x, main, master]` and succeeds. -/
theorem download_repo_branch_order (fetch : String → Except String Nat)
    (dirSize : Except String Nat) (repo : RepoInfo) :
    (download_repo fetch false dirSize repo).2 =
      takeThroughFirstOk (fun x => fetch (zipUrl repo x)) (branchOrder repo) ∧
    (∀ b s, firstOk (fun x => fetch (zipUrl repo x)) (branchOrder repo) = some (b, s) →
      (download_repo fetch false dirSize repo).1 = Except.ok s ∧
      (download_repo fetch false dirSize repo).2.getLast? = some b) ∧
    (firstOk (fun x => fetch (zipUrl repo x)) (branchOrder repo) = none →
      (download_repo fetch false dirSize repo).2 = branchOrder repo ∧
      ∃ msg, (download_repo fetch false dirSize repo).1 = Except.error msg) ∧
    (download_repo fetch false dirSize repo).2.count repo.default_branch ≤ 1 ∧
    download_repo fetchX false (Except.error "io") repoX =
      (Except.ok 42, ["feature-x", "main", "master"]) := by
  have hdr : download_repo fetch false dirSize repo = download_body fetch repo := rfl
  obtain ⟨h1, h2, h3⟩ := download_body_char fetch repo
  refine ⟨?_, ?_, ?_, ?_, ?_⟩
  · rw [hdr]; exact h1
  · intro b s hsome
    rw [hdr, h1]
    exact ⟨h2 b s hsome, takeThrough_getLast _ _ b s hsome⟩
  · intro hnone
    obtain ⟨e0, _, herr⟩ := h3 hnone
    refine ⟨?_, ⟨_, by rw [hdr]; exact herr⟩⟩
    rw [hdr, h1]
    have : ∀ bs, firstOk (fun x => fetch (zipUrl repo x)) bs = none →
        takeThroughFirstOk (fun x => fetch (zipUrl repo x)) bs = bs := by
      intro bs
      induction bs with
      | nil => intro _; rfl
      | cons c rest ih =>
          intro hn
          cases hfc : fetch (zipUrl repo c) with
          | ok v => simp [firstOk, hfc] at hn
          | error m =>
              simp only [firstOk, hfc] at hn
              simp only [takeThroughFirstOk, hfc]
              rw [ih hn]
    exact this _ hnone
  · rw [hdr, h1]
    calc (takeThroughFirstOk (fun x => fetch (zipUrl repo x))
            (branchOrder repo)).count repo.default_branch
        ≤ (branchOrder repo).count repo.default_branch :=
          (takeThrough_sublist _ (branchOrder repo)).count_le repo.default_branch
      _ = 1 := branchOrder_count_one repo
  · rfl

/-- Claim C3, witness: the general theorem applied to the `feature-x` /
`master` scenario shows the run succeeds with size 42 and ends at branch
`master`. -/
theorem download_repo_branch_order_witness :
    (download_repo fetchX false (Except.error "io") repoX).1 = Except.ok 42 ∧
    (download_repo fetchX false (Except.error "io") repoX).2.getLast? = some "master" := by
  have h := download_repo_branch_order fetchX (Except.error "io") repoX
  exact h.2.1 "master" 42 (by decide)

/-- Claim C7, counterexample.  The destination directory exists, but the
recursive size computation fails (`get_dir_size` returns `Err`), so the
source falls through the `if let Ok(size)` guard and performs the network
download anyway: the attempt trace is non-empty although the claim
requires no network activity whenever the destination exists. -/
theorem download_repo_idempotent_counterexample :
    (download_repo (fun _ => Except.ok 7) true (Except.error "denied") repoX).2 =
      ["feature-x"] ∧
    (download_repo (fun _ => Except.ok 7) true (Except.error "denied") repoX).2 ≠
      ([] : List String) := by
  refine ⟨rfl, ?_⟩
  intro h
  simp [download_repo, download_body] at h

/-- Claim C7 (amended: the shortcut additionally requires the recursive
size computation to succeed).  If the destination directory exists and
`get_dir_size` succeeds with `dirBytes`, `download_repo` performs no
network activity (empty attempt trace) and returns `dirBytes` as success;
a second invocation in the same state — even against a different network —
again performs no network call and returns the same byte total. -/
theorem download_repo_idempotent_shortcut (fetch fetch2 : String → Except String Nat)
    (dirBytes : Nat) (repo : RepoInfo) :
    download_repo fetch true (Except.ok dirBytes) repo = (Except.ok dirBytes, []) ∧
    download_repo fetch2 true (Except.ok dirBytes) repo =
      download_repo fetch true (Except.ok dirBytes) repo :=
  ⟨rfl, rfl⟩

theorem download_and_extract_ops (env : ExtractEnv) (p : String) :
    (download_and_extract env p).2 = [] ∨
    (download_and_extract env p).2 =
      [FsOp.writeFile (p ++ ".zip"), FsOp.removeFile (p ++ ".zip")] := by
  obtain ⟨fr, br, wr, er, ds⟩ := env
  cases fr with
  | error e => exact Or.inl rfl
  | ok status =>
      by_cases hs : isSuccessStatus status = true
      · cases br with
        | error e => left; simp [download_and_extract, hs]
        | ok u =>
            cases wr with
            | error e => left; simp [download_and_extract, hs]
            | ok u2 =>
                cases er with
                | ok u3 => right; simp [download_and_extract, hs]
                | error e => right; simp [download_and_extract, hs]
      · left
        simp only [download_and_extract]
        rw [if_neg hs]

/-- Claim C9: in every terminating execution of `download_and_extract` in
which the temporary `<repoPath>.zip` sibling file was successfully written,
the operation trace is exactly the write followed by the removal of that
file — for both extraction outcomes — so no terminating execution leaves
the temporary zip on disk after the unpack attempt. -/
theorem download_and_extract_temp_cleanup (env : ExtractEnv) (p : String)
    (hw : FsOp.writeFile (p ++ ".zip") ∈ (download_and_extract env p).2) :
    (download_and_extract env p).2 =
      [FsOp.writeFile (p ++ ".zip"), FsOp.removeFile (p ++ ".zip")] ∧
    FsOp.removeFile (p ++ ".zip") ∈ (download_and_extract env p).2 := by
  rcases download_and_extract_ops env p with h | h
  · rw [h] at hw
    exact absurd hw (by simp)
  · exact ⟨h, by rw [h]; simp⟩

/-- Claim C9, witness: a fully successful run writes and then removes the
temporary zip. -/
theorem download_and_extract_temp_cleanup_witness :
    (download_and_extract allOkEnv "u/r").2 =
      [FsOp.writeFile ("u/r" ++ ".zip"), FsOp.removeFile ("u/r" ++ ".zip")] :=
  (download_and_extract_temp_cleanup allOkEnv "u/r" (by decide)).1

theorem download_and_extract_removes_only_zip (env : ExtractEnv) (p q : String)
    (hq : FsOp.removeFile q ∈ (download_and_extract env p).2) : q = p ++ ".zip" := by
  rcases download_and_extract_ops env p with h | h
  · rw [h] at hq
    exact absurd hq (by simp)
  · rw [h] at hq
    simp at hq
    exact hq

/-- Claim C8, counterexample.  With every branch failing and each URL
failing with a distinct message, the surfaced `DownloadError` carries the
default-branch (first) attempt's reason, while the last attempted branch is
`trunk`: the message built from the last attempt's reason is not what is
returned, contradicting the claim that the final failed branch attempt's
reason is carried. -/
theorem download_repo_error_message_counterexample :
    (download_repo fetchZ false (Except.error "io") repoZ).1 =
      Except.error ("Failed to download: " ++ ("err:" ++ zipUrl repoZ "dev")) ∧
    (download_repo fetchZ false (Except.error "io") repoZ).2.getLast? = some "trunk" ∧
    ¬ (download_repo fetchZ false (Except.error "io") repoZ).1 =
      Except.error ("Failed to download: " ++ ("err:" ++ zipUrl repoZ "trunk")) := by
  refine ⟨rfl, rfl, ?_⟩
  intro h
  have h2 : ("Failed to download: " ++ ("err:" ++ zipUrl repoZ "dev")) =
      ("Failed to download: " ++ ("err:" ++ zipUrl repoZ "trunk")) := by
    have h1 : (download_repo fetchZ false (Except.error "io") repoZ).1 =
        Except.error ("Failed to download: " ++ ("err:" ++ zipUrl repoZ "dev")) := rfl
    rw [h1] at h
    injection h
  exact absurd h2 (by decide)

/-- Claim C8 (amended: the failure message carries the FIRST underlying
failure reason — the default-branch attempt's — not the last; fallback
errors are discarded).  When the default branch and every applicable
fallback fail, `download_repo` returns
`Err("Failed to download: " ++ e0)` with `e0` the default-branch attempt's
reason, and no cleanup of the destination tree is performed: the only path
`download_and_extract` ever removes is the temporary `<repoPath>.zip`
sibling file, never the destination directory itself. -/
theorem download_repo_failure_spec (fetch : String → Except String Nat)
    (dirSize : Except String Nat) (repo : RepoInfo) (e0 : String)
    (hd : fetch (zipUrl repo repo.default_branch) = Except.error e0)
    (hfb : ∀ b ∈ fallback_branches, ∃ msg, fetch (zipUrl repo b) = Except.error msg) :
    (download_repo fetch false dirSize repo).1 =
      Except.error ("Failed to download: " ++ e0) ∧
    (∀ env p q, FsOp.removeFile q ∈ (download_and_extract env p).2 →
      q = p ++ ".zip" ∧ q ≠ p) := by
  constructor
  · have hnone : firstOk (fun x => fetch (zipUrl repo x)) (branchOrder repo) = none := by
      apply firstOk_none_of_all_fail
      intro b hb
      rw [branchOrder] at hb
      rcases List.mem_cons.mp hb with rfl | hmem
      · exact ⟨e0, hd⟩
      · exact hfb b (List.mem_of_mem_filter hmem)
    obtain ⟨h1, h2, h3⟩ := download_body_char fetch repo
    obtain ⟨e0', he0', herr⟩ := h3 hnone
    rw [hd] at he0'
    have : e0' = e0 := by
      injection he0' with h
      exact h.symm
    subst this
    exact herr
  · intro env p q hq
    have hzip := download_and_extract_removes_only_zip env p q hq
    refine ⟨hzip, ?_⟩
    intro hcontra
    rw [hcontra] at hzip
    have hlen : p.length = (p ++ ".zip").length := by rw [← hzip]
    simp [String.length_append] at hlen
    exact absurd hlen (by decide)

/-- Claim C8, witness: the amended theorem applied to the all-failing
network `fetchZ`: the surfaced message carries the default-branch
attempt's reason. -/
theorem download_repo_failure_spec_witness :
    (download_repo fetchZ false (Except.error "io") repoZ).1 =
      Except.error ("Failed to download: " ++ ("err:" ++ zipUrl repoZ "dev")) :=
  (download_repo_failure_spec fetchZ (Except.error "io") repoZ
    ("err:" ++ zipUrl repoZ "dev") rfl
    (fun b _ => ⟨"err:" ++ zipUrl repoZ b, rfl⟩)).1

theorem foldl_report (outcomes : List (Except String Nat)) :
    ∀ init : TrackerState, init.total_size < 2 ^ 64 →
      outcomes.foldl report_completion init =
        { total := init.total,
          completed := init.completed + outcomes.length,
          downloaded := init.downloaded + outcomes.countP isOkOutcome,
          failed := init.failed + outcomes.countP (fun o => !(isOkOutcome o)),
          total_size :=
            (init.total_size + (outcomes.filterMap okSize).sum) % 2 ^ 64 } := by
  induction outcomes with
  | nil =>
      intro init hlt
      simp only [List.foldl_nil, List.length_nil, List.countP_nil,
        List.filterMap_nil, List.sum_nil, Nat.add_zero]
      rw [Nat.mod_eq_of_lt hlt]
  | cons o rest ih =>
      intro init hlt
      rw [List.foldl_cons]
      cases o with
      | ok size =>
          rw [ih (report_completion init (Except.ok size))
            (by simp only [report_completion]; exact Nat.mod_lt _ (by decide))]
          have hmod : ((init.total_size + size) % 2 ^ 64 +
              (rest.filterMap okSize).sum) % 2 ^ 64 =
              (init.total_size + (size + (rest.filterMap okSize).sum)) % 2 ^ 64 := by
            rw [Nat.mod_add_mod, Nat.add_assoc]
          simp [report_completion, isOkOutcome, okSize, List.countP_cons,
            TrackerState.mk.injEq, hmod]
          omega
      | error msg =>
          rw [ih (report_completion init (Except.error msg))
            (by simp only [report_completion]; exact hlt)]
          simp [report_completion, isOkOutcome, okSize, List.countP_cons,
            TrackerState.mk.injEq]
          omega

/-- Claim C4, counterexample.  The claim reads `totalBytes = s_1 + ... +
s_K` as an exact sum, but the source accumulates into a u64
(`*total_size += size`): after two successes of 2^63 bytes each, the
final `total_size` is 0 (wrapped), not `2^63 + 2^63`. -/
theorem progress_tracker_wrap_counterexample :
    (get_stats ([Except.ok (2 ^ 63), Except.ok (2 ^ 63)].foldl report_completion
        (ProgressTracker_new 2))).total_size = 0 ∧
    ¬ (get_stats ([Except.ok (2 ^ 63), Except.ok (2 ^ 63)].foldl report_completion
        (ProgressTracker_new 2))).total_size = 2 ^ 63 + 2 ^ 63 := by
  exact ⟨by decide, by decide⟩

/-- Claim C4 (amended: `totalBytes` is the sum of the success sizes
computed in wrapping u64 arithmetic, i.e. mod 2^64, matching the source's
`*total_size += size`): after folding N outcome reports (K successes
carrying sizes, N-K failures) from the initial tracker, the final stats
report `downloaded = K`, `failed = N-K`, `completed = N` and
`total_size = (sum of the K sizes) mod 2^64`; the result is identical for
any permutation of the report order; and after any prefix of reports,
`completed = downloaded + failed` and `completed` never exceeds the
dispatched task count N. -/
theorem progress_tracker_aggregation (outcomes : List (Except String Nat)) :
    (get_stats (outcomes.foldl report_completion
        (ProgressTracker_new outcomes.length))).downloaded =
      outcomes.countP isOkOutcome ∧
    (get_stats (outcomes.foldl report_completion
        (ProgressTracker_new outcomes.length))).failed =
      outcomes.countP (fun o => !(isOkOutcome o)) ∧
    (outcomes.foldl report_completion (ProgressTracker_new outcomes.length)).completed =
      outcomes.length ∧
    (get_stats (outcomes.foldl report_completion
        (ProgressTracker_new outcomes.length))).total_size =
      (outcomes.filterMap okSize).sum % 2 ^ 64 ∧
    (∀ other, List.Perm outcomes other →
      other.foldl report_completion (ProgressTracker_new outcomes.length) =
        outcomes.foldl report_completion (ProgressTracker_new outcomes.length)) ∧
    (∀ n,
      ((outcomes.take n).foldl report_completion
          (ProgressTracker_new outcomes.length)).completed =
        ((outcomes.take n).foldl report_completion
          (ProgressTracker_new outcomes.length)).downloaded +
        ((outcomes.take n).foldl report_completion
          (ProgressTracker_new outcomes.length)).failed ∧
      ((outcomes.take n).foldl report_completion
          (ProgressTracker_new outcomes.length)).completed ≤ outcomes.length) := by
  have hinit : ∀ N, (ProgressTracker_new N).total_size < 2 ^ 64 := fun _ => by
    show (0 : Nat) < 2 ^ 64
    decide
  refine ⟨?_, ?_, ?_, ?_, ?_, ?_⟩
  · rw [foldl_report _ _ (hinit _)]; simp [get_stats, ProgressTracker_new]
  · rw [foldl_report _ _ (hinit _)]; simp [get_stats, ProgressTracker_new]
  · rw [foldl_report _ _ (hinit _)]; simp [ProgressTracker_new]
  · rw [foldl_report _ _ (hinit _)]; simp [get_stats, ProgressTracker_new]
  · intro other hperm
    rw [foldl_report _ _ (hinit _), foldl_report _ _ (hinit _), hperm.length_eq,
      hperm.countP_eq, hperm.countP_eq, (hperm.filterMap okSize).sum_eq]
  · intro n
    rw [foldl_report _ _ (hinit _)]
    have hcnt : (outcomes.take n).length =
        (outcomes.take n).countP isOkOutcome +
          (outcomes.take n).countP (fun o => !(isOkOutcome o)) := by
      simpa using (outcomes.take n).length_eq_countP_add_countP isOkOutcome
    have hlen : (outcomes.take n).length = min n outcomes.length :=
      List.length_take n outcomes
    dsimp only [ProgressTracker_new]
    constructor
    · omega
    · omega

/-- Claim C4, witness: two outcomes (one 5-byte success, one failure)
reported in either order give the same final state, with one download
counted. -/
theorem progress_tracker_aggregation_witness :
    [Except.error "x", Except.ok 5].foldl report_completion (ProgressTracker_new 2) =
      [Except.ok 5, Except.error "x"].foldl report_completion (ProgressTracker_new 2) ∧
    (get_stats ([Except.ok 5, Except.error "x"].foldl report_completion
        (ProgressTracker_new 2))).downloaded = 1 := by
  have h := progress_tracker_aggregation [Except.ok 5, Except.error "x"]
  refine ⟨?_, ?_⟩
  · exact h.2.2.2.2.1 [Except.error "x", Except.ok 5]
      (List.Perm.swap (Except.error "x") (Except.ok 5) [])
  · have h1 := h.1
    simp only [List.length_cons, List.length_nil] at h1
    rw [h1]
    decide

/-- Claim C6: `extract_zip` skips every path-traversal-unsafe entry and
every entry whose safe path has at most one component (nothing remains
after stripping); every performed action's path comes from some entry's
safe path with its first component stripped (or that stripped path's
parent); and the archive `[repo-main/src/a.txt, repo-main/]` produces
exactly the parent creation of `src` and one file write at `src/a.txt`,
with nothing named `repo-main`. -/
theorem extract_zip_stripping :
    (∀ e entries,
      (e.enclosed = none ∨ ∃ c, e.enclosed = some c ∧ c.length ≤ 1) →
      extract_zip (e :: entries) = extract_zip entries) ∧
    (∀ entries a, a ∈ extract_zip entries →
      ∃ e, e ∈ entries ∧ ∃ c, e.enclosed = some c ∧ 1 < c.length ∧
        (actionPath a = c.drop 1 ∨ actionPath a = (c.drop 1).dropLast)) ∧
    extract_zip
        [{ name := "repo-main/src/a.txt", enclosed := some ["repo-main", "src", "a.txt"] },
         { name := "repo-main/", enclosed := some ["repo-main"] }] =
      [ExtractAction.mkParent ["src"], ExtractAction.writeFile ["src", "a.txt"]] := by
  refine ⟨?_, ?_, by decide⟩
  · intro e entries h
    have he : extract_entry e = [] := by
      rcases h with h | ⟨c, hc, hlen⟩
      · simp [extract_entry, h]
      · simp [extract_entry, hc, Nat.not_lt.mpr hlen]
    show extract_entry e ++ extract_zip entries = extract_zip entries
    rw [he]
    rfl
  · intro entries
    induction entries with
    | nil => intro a ha; simp [extract_zip] at ha
    | cons e rest ih =>
        intro a ha
        rw [show extract_zip (e :: rest) = extract_entry e ++ extract_zip rest from rfl,
          List.mem_append] at ha
        rcases ha with ha | ha
        · refine ⟨e, List.mem_cons_self e rest, ?_⟩
          cases hc : e.enclosed with
          | none => rw [extract_entry, hc] at ha; simp at ha
          | some comps =>
              by_cases hlen : comps.length > 1
              · refine ⟨comps, rfl, hlen, ?_⟩
                simp only [extract_entry, hc] at ha
                rw [if_pos hlen] at ha
                by_cases hdir : nameEndsSlash e.name = true
                · rw [if_pos hdir] at ha
                  simp at ha
                  subst ha
                  exact Or.inl (by simp [actionPath, List.drop_one])
                · rw [if_neg hdir] at ha
                  simp at ha
                  rcases ha with rfl | rfl
                  · exact Or.inr (by simp [actionPath, List.drop_one])
                  · exact Or.inl (by simp [actionPath, List.drop_one])
              · simp only [extract_entry, hc] at ha
                rw [if_neg hlen] at ha
                simp at ha
        · obtain ⟨e2, he2, hrest⟩ := ih a ha
          exact ⟨e2, List.mem_cons_of_mem e he2, hrest⟩

/-- Claim C6, witness: the general theorem applied to the lone
top-level-directory entry, which is skipped. -/
theorem extract_zip_stripping_witness :
    extract_zip [{ name := "repo-main/", enclosed := some ["repo-main"] }] =
      ([] : List ExtractAction) :=
  extract_zip_stripping.1
    { name := "repo-main/", enclosed := some ["repo-main"] } []
    (Or.inr ⟨["repo-main"], rfl, by decide⟩)

theorem fsNode_sizeOf_pos (n : FsNode) : 1 ≤ sizeOf n := by
  cases n with
  | file s => simp
  | badEntry => simp
  | dir r es =>
      simp
      omega

theorem dirEntries_spec :
    ∀ k es, sizeOf es ≤ k →
      (hasBadEntry es = false → dirEntriesSize es = Except.ok (specSum es)) ∧
      (hasBadEntry es = true → ∃ m, dirEntriesSize es = Except.error m) := by
  intro k
  induction k with
  | zero =>
      intro es h
      exfalso
      have hpos : 1 ≤ sizeOf es := by
        cases es with
        | nil => simp
        | cons e rest =>
            simp
            omega
      omega
  | succ k ih =>
      intro es h
      cases es with
      | nil =>
          constructor
          · intro _
            simp [dirEntriesSize, specSum]
          · intro hbad
            simp [hasBadEntry] at hbad
      | cons e rest =>
          have hre : sizeOf rest ≤ k := by
            have h1 := fsNode_sizeOf_pos e
            simp at h
            omega
          obtain ⟨ihr1, ihr2⟩ := ih rest hre
          cases e with
          | badEntry =>
              constructor
              · intro hb
                simp [hasBadEntry] at hb
              · intro _
                exact ⟨"metadata failed", by simp [dirEntriesSize]⟩
          | file n =>
              have hbe : hasBadEntry (FsNode.file n :: rest) = hasBadEntry rest := by
                simp [hasBadEntry]
              constructor
              · intro hb
                rw [hbe] at hb
                rw [show dirEntriesSize (FsNode.file n :: rest) =
                    (dirEntriesSize rest).map (fun t => (n + t) % 2 ^ 64) from by
                  simp [dirEntriesSize]]
                rw [ihr1 hb]
                simp [Except.map, specSum, specDirSize]
              · intro hb
                rw [hbe] at hb
                obtain ⟨m, hm⟩ := ihr2 hb
                refine ⟨m, ?_⟩
                rw [show dirEntriesSize (FsNode.file n :: rest) =
                    (dirEntriesSize rest).map (fun t => (n + t) % 2 ^ 64) from by
                  simp [dirEntriesSize]]
                rw [hm]
                rfl
          | dir r es2 =>
              have hbe : hasBadEntry (FsNode.dir r es2 :: rest) = hasBadEntry rest := by
                simp [hasBadEntry]
              have hes2 : sizeOf es2 ≤ k := by
                simp at h
                omega
              have hcontrib :
                  (match get_dir_size (FsNode.dir r es2) with
                   | Except.ok v => v
                   | Except.error _ => 0) = specDirSize (FsNode.dir r es2) := by
                cases r with
                | false => simp [get_dir_size, specDirSize]
                | true =>
                    obtain ⟨ihs1, ihs2⟩ := ih es2 hes2
                    cases hbad2 : hasBadEntry es2 with
                    | false =>
                        rw [show get_dir_size (FsNode.dir true es2) =
                            dirEntriesSize es2 from by simp [get_dir_size]]
                        rw [ihs1 hbad2]
                        simp [specDirSize, hbad2]
                    | true =>
                        obtain ⟨m, hm⟩ := ihs2 hbad2
                        rw [show get_dir_size (FsNode.dir true es2) =
                            dirEntriesSize es2 from by simp [get_dir_size]]
                        rw [hm]
                        simp [specDirSize, hbad2]
              constructor
              · intro hb
                rw [hbe] at hb
                rw [show dirEntriesSize (FsNode.dir r es2 :: rest) =
                    (dirEntriesSize rest).map (fun t =>
                      ((match get_dir_size (FsNode.dir r es2) with
                        | Except.ok v => v
                        | Except.error _ => 0) + t) % 2 ^ 64) from by
                  simp [dirEntriesSize]]
                rw [ihr1 hb]
                simp only [Except.map]
                rw [hcontrib]
                simp [specSum]
              · intro hb
                rw [hbe] at hb
                obtain ⟨m, hm⟩ := ihr2 hb
                refine ⟨m, ?_⟩
                rw [show dirEntriesSize (FsNode.dir r es2 :: rest) =
                    (dirEntriesSize rest).map (fun t =>
                      ((match get_dir_size (FsNode.dir r es2) with
                        | Except.ok v => v
                        | Except.error _ => 0) + t) % 2 ^ 64) from by
                  simp [dirEntriesSize]]
                rw [hm]
                rfl

/-- Claim C10, counterexample.  Two refutations of the claim as stated.
First, a directory whose entry list contains a metadata-failing entry:
the source's `entry?` / `metadata()?` propagate the error, so
`get_dir_size` aborts with `Err` instead of tolerating the unreadable
entry as 0 — the claim would require `Ok 5` (counting the remaining file)
or at least `Ok 0`.  Second, the u64 accumulator wraps: two files of
2^63 bytes sum to `Ok 0`, not the exact sum `2^64` the claim's
"sums the byte length of every regular file" reading requires. -/
theorem get_dir_size_abort_counterexample :
    get_dir_size (FsNode.dir true [FsNode.badEntry, FsNode.file 5]) =
      Except.error "metadata failed" ∧
    ¬ get_dir_size (FsNode.dir true [FsNode.badEntry, FsNode.file 5]) = Except.ok 5 ∧
    ¬ get_dir_size (FsNode.dir true [FsNode.badEntry, FsNode.file 5]) = Except.ok 0 ∧
    get_dir_size (FsNode.dir true [FsNode.file (2 ^ 63), FsNode.file (2 ^ 63)]) =
      Except.ok 0 ∧
    ¬ get_dir_size (FsNode.dir true [FsNode.file (2 ^ 63), FsNode.file (2 ^ 63)]) =
      Except.ok (2 ^ 63 + 2 ^ 63) := by
  have h : get_dir_size (FsNode.dir true [FsNode.badEntry, FsNode.file 5]) =
      Except.error "metadata failed" := by
    simp [get_dir_size, dirEntriesSize]
  have hw : get_dir_size (FsNode.dir true [FsNode.file (2 ^ 63), FsNode.file (2 ^ 63)]) =
      Except.ok 0 := by
    rw [show get_dir_size (FsNode.dir true [FsNode.file (2 ^ 63), FsNode.file (2 ^ 63)]) =
        dirEntriesSize [FsNode.file (2 ^ 63), FsNode.file (2 ^ 63)] from by
      simp only [get_dir_size]]
    rw [show dirEntriesSize [FsNode.file (2 ^ 63), FsNode.file (2 ^ 63)] =
        (dirEntriesSize [FsNode.file (2 ^ 63)]).map (fun t => (2 ^ 63 + t) % 2 ^ 64) from by
      simp only [dirEntriesSize]]
    rw [show dirEntriesSize [FsNode.file (2 ^ 63)] =
        (dirEntriesSize []).map (fun t => (2 ^ 63 + t) % 2 ^ 64) from by
      simp only [dirEntriesSize]]
    rw [show dirEntriesSize ([] : List FsNode) = Except.ok 0 from by
      simp only [dirEntriesSize]]
    simp only [Except.map]
    norm_num
  refine ⟨h, ?_, ?_, hw, ?_⟩
  · rw [h]
    simp
  · rw [h]
    simp
  · rw [hw]
    simp

/-- Claim C10 (amended: only a failing recursive subdirectory traversal is
tolerated and contributes 0 via `.unwrap_or(0)`; a failure to read the
argument directory itself, or an entry / entry-metadata failure at the
current level, aborts the computation with `Err`; and the per-directory
sum is accumulated in wrapping u64 arithmetic, i.e. mod 2^64, matching
the source's `size += ...` on a u64).  On a readable directory whose own
entry list has no failing entry, `get_dir_size` returns the recursive
wrapped sum in which regular files contribute their byte length and every
unreadable or failing subtree contributes 0; with a failing entry at the
current level it returns `Err`; and the `unwrap_or(0)` value a caller
sees always equals the spec size. -/
theorem get_dir_size_spec :
    (∀ es, hasBadEntry es = false →
      get_dir_size (FsNode.dir true es) = Except.ok (specSum es)) ∧
    (∀ es, hasBadEntry es = true →
      ∃ m, get_dir_size (FsNode.dir true es) = Except.error m) ∧
    (∀ r es,
      (match get_dir_size (FsNode.dir r es) with
       | Except.ok v => v
       | Except.error _ => 0) = specDirSize (FsNode.dir r es)) := by
  have key := fun es : List FsNode => dirEntries_spec (sizeOf es) es (le_refl _)
  refine ⟨?_, ?_, ?_⟩
  · intro es hb
    rw [show get_dir_size (FsNode.dir true es) = dirEntriesSize es from by
      simp [get_dir_size]]
    exact (key es).1 hb
  · intro es hb
    obtain ⟨m, hm⟩ := (key es).2 hb
    refine ⟨m, ?_⟩
    rw [show get_dir_size (FsNode.dir true es) = dirEntriesSize es from by
      simp [get_dir_size]]
    exact hm
  · intro r es
    cases r with
    | false => simp [get_dir_size, specDirSize]
    | true =>
        cases hb : hasBadEntry es with
        | false =>
            rw [show get_dir_size (FsNode.dir true es) = dirEntriesSize es from by
              simp [get_dir_size]]
            rw [(key es).1 hb]
            simp [specDirSize, hb]
        | true =>
            obtain ⟨m, hm⟩ := (key es).2 hb
            rw [show get_dir_size (FsNode.dir true es) = dirEntriesSize es from by
              simp [get_dir_size]]
            rw [hm]
            simp [specDirSize, hb]

/-- Claim C10, witness: a readable directory holding a 3-byte file, an
unreadable subdirectory and a readable subdirectory with a failing entry
inside: the two subtrees contribute 0 and the traversal succeeds with 3. -/
theorem get_dir_size_spec_witness :
    get_dir_size (FsNode.dir true
      [FsNode.file 3, FsNode.dir false [], FsNode.dir true [FsNode.badEntry]]) =
      Except.ok 3 := by
  have h := get_dir_size_spec.1
    [FsNode.file 3, FsNode.dir false [], FsNode.dir true [FsNode.badEntry]]
    (by decide)
  rw [h]
  simp [specSum, specDirSize, hasBadEntry]
